import Mathlib

/-!
Verification development for the web page analyzer repository.

The file embeds, as executable Lean definitions, the parts of the Go
source that the checked properties talk about:

1. the HTML document tree and the pure analysis helpers of
   internal/service/web_page_analyzer.go (heading counts, login form
   detection, link collection, canonical host computation, the link
   reachability aggregation loop);
2. the two stage analysis pipeline of the service (revision with the
   two pools and RunTasksWithWorkerPool);
3. a small step interleaving model of the worker pool of
   internal/pkg/worker_pool/worker_pool.go, and a second model for the
   revision whose shutdown goroutine waits on the WaitGroup and whose
   workers deliver through a select racing the cancellation signal.

Theorems about the claims follow the definitions.
-/

/- ===== Section 1: HTML document tree =====
   Mirrors the node structure of golang.org/x/net/html used by the
   service: a node has a type, a data string (the tag name for element
   nodes), attributes (key and value pairs) and children. -/

inductive NodeType where
  | errorNode
  | textNode
  | documentNode
  | elementNode
  | commentNode
  | doctypeNode
deriving DecidableEq

mutual
inductive HNode where
  | mk : NodeType → String → List (String × String) → HForest → HNode
inductive HForest where
  | nil : HForest
  | cons : HNode → HForest → HForest
end

def HNode.ntype : HNode → NodeType
  | .mk t _ _ _ => t

def HNode.data : HNode → String
  | .mk _ d _ _ => d

def HNode.attrs : HNode → List (String × String)
  | .mk _ _ a _ => a

def HNode.children : HNode → HForest
  | .mk _ _ _ c => c

mutual
/-- List of all nodes of a tree, the root included, in preorder. -/
def allNodes : HNode → List HNode
  | .mk t d a cs => HNode.mk t d a cs :: allNodesF cs
def allNodesF : HForest → List HNode
  | .nil => []
  | .cons n rest => allNodes n ++ allNodesF rest
end

/- ===== Section 2: pure analysis helpers from the service =====
   Each definition is a direct translation of the corresponding Go
   function in internal/service/web_page_analyzer.go. -/

/-- Translation of getHref: the value of the first href attribute of a
node, the empty string when there is none. -/
def getHref : List (String × String) → String
  | [] => ""
  | (k, v) :: rest => if k = "href" then v else getHref rest

/-- Translation of the attribute scan inside formHasPassword: true when
some attribute pair is type=password. -/
def attrHasPassword : List (String × String) → Bool
  | [] => false
  | (k, v) :: rest =>
    if k = "type" ∧ v = "password" then true else attrHasPassword rest

mutual
/-- Translation of formHasPassword: walk the subtree rooted at the given
node looking for an input element carrying a type=password attribute. -/
def formHasPassword : HNode → Bool
  | .mk t d a cs =>
    if t = NodeType.elementNode ∧ d = "input" ∧ attrHasPassword a = true
    then true
    else formHasPasswordF cs
def formHasPasswordF : HForest → Bool
  | .nil => false
  | .cons n rest => formHasPassword n || formHasPasswordF rest
end

mutual
/-- Translation of the traversal of hasLoginFormTask: true when some
form element node of the tree has a password input in its subtree.  A
form whose subtree lacks one is descended into, so nested forms are
inspected as well. -/
def hasLoginForm : HNode → Bool
  | .mk t d a cs =>
    if t = NodeType.elementNode ∧ d = "form" ∧
        formHasPassword (HNode.mk t d a cs) = true
    then true
    else hasLoginFormF cs
def hasLoginFormF : HForest → Bool
  | .nil => false
  | .cons n rest => hasLoginForm n || hasLoginFormF rest
end

mutual
/-- Number of element nodes of the tree whose data equals the given tag
name.  This is the specification side count used to state the heading
claim. -/
def countTag (tag : String) : HNode → Nat
  | .mk t d _ cs =>
    (if t = NodeType.elementNode ∧ d = tag then 1 else 0) + countTagF tag cs
def countTagF (tag : String) : HForest → Nat
  | .nil => 0
  | .cons n rest => countTag tag n + countTagF tag rest
end

def sixHeadings : List String := ["h1", "h2", "h3", "h4", "h5", "h6"]

/-- Increment of a key of a Go map modelled on an association list: the
first entry carrying the key is bumped; a missing key is created at 1
as a Go map increment would do. -/
def bump : List (String × Nat) → String → List (String × Nat)
  | [], k => [(k, 1)]
  | (k2, v) :: rest, k =>
    if k2 = k then (k2, v + 1) :: rest else (k2, v) :: bump rest k

mutual
/-- Translation of the traversal of countHeadingsTask: thread the counts
map through a preorder walk, bumping the entry of each heading element
met. -/
def countHeadingsNode : List (String × Nat) → HNode → List (String × Nat)
  | m, .mk t d _ cs =>
    countHeadingsF
      (if t = NodeType.elementNode ∧ d ∈ sixHeadings then bump m d else m) cs
def countHeadingsF : List (String × Nat) → HForest → List (String × Nat)
  | m, .nil => m
  | m, .cons n rest => countHeadingsF (countHeadingsNode m n) rest
end

/-- Translation of countHeadingsTask: the map starts with the six
heading keys at zero and is threaded through the document walk. -/
def countHeadings (doc : HNode) : List (String × Nat) :=
  countHeadingsNode
    [("h1", 0), ("h2", 0), ("h3", 0), ("h4", 0), ("h5", 0), ("h6", 0)] doc

/- ===== URLs and link collection ===== -/

/-- Parsed absolute URL in the shape the service inspects it: the Go
code only ever reads the scheme, the Hostname() part and the Port()
part of a net.url URL, so the embedding keeps exactly those three
projections.  An absent port is the empty string, as Port() yields. -/
structure AUrl where
  scheme : String
  hostname : String
  port : String
deriving DecidableEq

/-- Translation of getCanonicalHost: the hostname alone when the port is
absent or is the default port of the scheme, hostname:port otherwise. -/
def getCanonicalHost (u : AUrl) : String :=
  if u.port = "" then u.hostname
  else if (u.scheme = "http" ∧ u.port = "80") ∨
          (u.scheme = "https" ∧ u.port = "443") then u.hostname
  else u.hostname ++ ":" ++ u.port

/-- Translation of linkInfo: the absolute URL of a collected anchor and
its internal/external classification flag. -/
structure LinkInfo where
  url : AUrl
  isInternal : Bool
deriving DecidableEq

/- Translation of the traversal of collectLinks.  The reference
resolution performed by the Go code through baseURL.Parse(href) is an
external library call and enters as the resolve parameter.  An anchor
element with an empty or missing href, an unresolvable href, or a
resolved scheme other than http or https is dropped together with its
whole subtree, exactly as the early returns of the Go traversal do;
an accepted anchor contributes one entry and its subtree is walked
further. -/
mutual
/-- Traversal of collectLinks over one node. -/
def collectLinksNode (resolve : AUrl → String → Option AUrl) (base : AUrl) :
    HNode → List LinkInfo
  | .mk t d a cs =>
    if t = NodeType.elementNode ∧ d = "a" then
      if getHref a = "" then []
      else
        match resolve base (getHref a) with
        | none => []
        | some u =>
          if u.scheme = "http" ∨ u.scheme = "https" then
            { url := u,
              isInternal := decide (getCanonicalHost u = getCanonicalHost base) }
              :: collectLinksF resolve base cs
          else []
    else collectLinksF resolve base cs
def collectLinksF (resolve : AUrl → String → Option AUrl) (base : AUrl) :
    HForest → List LinkInfo
  | .nil => []
  | .cons n rest => collectLinksNode resolve base n ++ collectLinksF resolve base rest
end

/-- Translation of the counting loop of countLinksTask: internal and
external totals over the collected links. -/
def countLinks (links : List LinkInfo) : Nat × Nat :=
  (links.countP (fun l => l.isInternal), links.countP (fun l => !l.isInternal))

/- ===== Link reachability probing ===== -/

/-- Outcome model of webClient.Do for a HEAD probe: none is a transport
error, some code is a completed request with that status code. -/
def ProbeOracle : Type := AUrl → Option Nat

/-- Translation of the probe closure submitted by
checkLinksAccessibilityTask for one link: false on a transport error or
a status of 400 and above, true otherwise.  The closure always returns
a nil error, so the probe outcome is only this boolean. -/
def probeLink (fetch : ProbeOracle) (u : AUrl) : Bool :=
  match fetch u with
  | none => false
  | some code => if code ≥ 400 then false else true

/-- Dynamic result payloads travelling on the shared results channel of
the stage two pool: every stage two task result lands there, typed as
Go any.  boolRes carries a probe outcome, the other constructors carry
the payloads of the six analysis tasks. -/
inductive Payload where
  | boolRes : Bool → Payload
  | strRes : String → Payload
  | natRes : Nat → Payload
  | mapRes : List (String × Nat) → Payload
deriving DecidableEq

/-- Translation of the read loop body of checkLinksAccessibilityTask:
the Go code runs ok, underscore := res.Result.(bool) and increments on
not ok, so a consumed result increments the count exactly when it is
not the boolean true: a false probe, but also any payload that is not a
boolean at all. -/
def resultCountsInaccessible : Payload → Bool
  | .boolRes b => !b
  | _ => true

/-- Translation of the aggregation loop of checkLinksAccessibilityTask:
read m results from the given stream of channel payloads and count the
ones that are not the boolean true. -/
def inaccessibleCountLoop (rs : List Payload) (m : Nat) : Nat :=
  (rs.take m).countP resultCountsInaccessible

/-- Payloads produced by the probes of the given links, in submission
order; a dedicated pool would deliver exactly these, in some order. -/
def probePayloads (fetch : ProbeOracle) (links : List LinkInfo) : List Payload :=
  links.map (fun l => Payload.boolRes (probeLink fetch l.url))

/-- Number of links whose probe fails: transport error or status of 400
and above. -/
def failingCount (fetch : ProbeOracle) (links : List LinkInfo) : Nat :=
  links.countP (fun l => !probeLink fetch l.url)

/- ===== Section 3: the two stage analysis pipeline =====
   Embedding of the Analyze revision that drives two pools through
   RunTasksWithWorkerPool.  The embedding is sequential: the stage one
   tasks write disjoint fields and both always execute (two workers
   dequeue both tasks at submission, and fail fast cancellation can
   only fire after one of them completes), so the observables the
   claims mention (the status code field, the returned error, the set
   of stage two tasks that execute) do not depend on the interleaving.
   The result of parseUrl is consumed first in this embedding. -/

/-- Translation of the traversal of getTitleTask: an element node named
title with a first child takes the data of that first child and skips
its subtree; later title elements in preorder overwrite earlier ones. -/
def firstChildData : HForest → Option String
  | .nil => none
  | .cons n _ => some n.data

mutual
/-- Walk of getTitleTask over one node, threading the title variable. -/
def titleWalk : String → HNode → String
  | acc, .mk t d _ cs =>
    if t = NodeType.elementNode ∧ d = "title" ∧ firstChildData cs ≠ none then
      (firstChildData cs).getD acc
    else titleWalkF acc cs
def titleWalkF : String → HForest → String
  | acc, .nil => acc
  | acc, .cons n rest => titleWalkF (titleWalk acc n) rest
end

/-- Translation of getTitleTask on a document. -/
def getTitle (doc : HNode) : String := titleWalk "" doc

/-- Pipeline error taxonomy: the distinct return paths of parseUrlTask
and getWebPageTask.  The Go code wraps string messages; only the path
taken matters to the claims. -/
inductive TaskErr where
  | urlParseFailed
  | transportFailed
  | badStatus (code : Nat)
  | htmlParseFailed
deriving DecidableEq

/-- Accumulator of the pipeline, mirroring models.AnalysisResult with
Go zero values as the initial state: nil pointers are none, numbers 0,
strings empty, the map nil. -/
structure AnalysisResult where
  baseUrl : Option AUrl
  htmlNode : Option HNode
  bodyByte : Option String
  htmlVersion : String
  title : String
  headings : List (String × Nat)
  internalLinks : Nat
  externalLinks : Nat
  inaccessibleLinks : Nat
  hasLoginFormFlag : Bool
  statusCode : Nat

def initResult : AnalysisResult :=
  { baseUrl := none, htmlNode := none, bodyByte := none, htmlVersion := "",
    title := "", headings := [], internalLinks := 0, externalLinks := 0,
    inaccessibleLinks := 0, hasLoginFormFlag := false, statusCode := 0 }

/-- External collaborators of the pipeline: URL parsing, the GET of the
document, HTML parsing, href resolution, the HEAD probes, and the
doctype to version computation of getHTMLVersionTask whose tokenizer is
an external library.  A none from a fetch is a transport error. -/
structure PipelineEnv where
  urlParse : String → Option AUrl
  fetchGet : String → Option (String × Nat)
  parseHtml : String → Option HNode
  resolve : AUrl → String → Option AUrl
  fetchHead : AUrl → Option Nat
  versionOf : String → String

/-- Output of one pipeline run: the accumulator, the error returned by
Analyze, and the ids of the task functions that actually executed, in
execution order of the sequential embedding. -/
structure PipeOut where
  result : AnalysisResult
  errOut : Option TaskErr
  executed : List String

/-- Translation of getWebPageTask: on a transport error or a status
other than 200 the task returns the error before any accumulator
write, so the status code field is only written on the success path,
after the body parses. -/
def getWebPageTask (env : PipelineEnv) (userURL : String)
    (acc : AnalysisResult) : AnalysisResult × Option TaskErr :=
  match env.fetchGet userURL with
  | none => (acc, some TaskErr.transportFailed)
  | some (body, code) =>
    if code ≠ 200 then (acc, some (TaskErr.badStatus code))
    else
      match env.parseHtml body with
      | none => (acc, some TaskErr.htmlParseFailed)
      | some doc =>
        ({ acc with statusCode := code, bodyByte := some body,
                    htmlNode := some doc }, none)

/-- Translation of Analyze (two pool revision).  Stage one: parseUrl
and getWebPage; the first error aborts the run and is returned with the
accumulator as it stands.  Stage two: the six analysis tasks; none of
them can return an error (collectLinks always returns a nil error), so
the run then completes.  The reachability aggregation is given the
probe payloads themselves, the behavior a probe pool scoped to the
task would produce. -/
def analyze (env : PipelineEnv) (userURL : String) : PipeOut :=
  let acc0 := initResult
  let parsed := env.urlParse userURL
  let acc1 := match parsed with
    | some b => { acc0 with baseUrl := some b }
    | none => acc0
  let err1 : Option TaskErr := match parsed with
    | some _ => none
    | none => some TaskErr.urlParseFailed
  let stage1 := getWebPageTask env userURL acc1
  let acc2 := stage1.fst
  let err2 := match err1 with
    | some e => some e
    | none => stage1.snd
  match err2 with
  | some e => { result := acc2, errOut := some e,
                executed := ["parseUrl", "getWebPage"] }
  | none =>
    let doc := (acc2.htmlNode).getD (HNode.mk NodeType.errorNode "" [] HForest.nil)
    let base := (acc2.baseUrl).getD { scheme := "", hostname := "", port := "" }
    let body := (acc2.bodyByte).getD ""
    let links := collectLinksNode env.resolve base doc
    let counted := countLinks links
    let acc3 :=
      { acc2 with
        htmlVersion := env.versionOf body,
        title := getTitle doc,
        headings := countHeadings doc,
        internalLinks := counted.fst,
        externalLinks := counted.snd,
        inaccessibleLinks :=
          inaccessibleCountLoop (probePayloads env.fetchHead links) links.length,
        hasLoginFormFlag := hasLoginForm doc }
    { result := acc3, errOut := none,
      executed := ["parseUrl", "getWebPage", "getHTMLVersion", "getTitle",
                   "countHeadings", "countLinks", "checkLinksAccessibility",
                   "hasLoginForm"] }

/- ===== Section 4: worker pool, checked in revision =====
   Small step interleaving model of
   internal/pkg/worker_pool/worker_pool.go.  Every goroutine of the Go
   code appears as a process whose atomic actions are the channel and
   context operations of the source:

   the shutdown goroutine waits for cancellation, closes the tasks
   channel, then immediately closes the results channel without any
   WaitGroup wait;

   a worker loops: from idle it either exits on cancellation, exits on
   a closed tasks channel, or receives a work item (an unbuffered
   rendezvous with a submitter); it runs the task function, cancelling
   the pool when the task errors and stopOnError is set; then it sends
   the result unconditionally on the results channel, a panic when that
   channel is already closed;

   Submit first polls the cancellation signal, returning the PoolClosed
   error when it is set, then selects between the enqueue rendezvous
   and the cancellation signal; when the tasks channel was closed in
   between, choosing the enqueue case is a send on a closed channel and
   panics.

   Tasks are numbered in submission order and an oracle gives the error
   outcome of each task function.  The consumer of the results channel
   is taken as always ready, so a delivery step is enabled whenever the
   channel is open.  The finished and delivered lists are observer
   fields recording what happened. -/

namespace WPA

inductive WStatus where
  | idle
  | running (task : Nat)
  | sending (task : Nat)
  | exited
deriving DecidableEq

inductive SubStatus where
  | sIdle
  | sChecked
deriving DecidableEq

inductive PanicKind where
  | sendClosedResults
  | sendClosedTasks
deriving DecidableEq

structure Cfg where
  stopOnError : Bool
  outcome : Nat → Bool

structure St where
  workers : List WStatus
  cancelled : Bool
  tasksClosed : Bool
  resultsClosed : Bool
  sub : SubStatus
  nextTask : Nat
  submitted : List Nat
  delivered : List Nat
  finished : List Nat
  lastSubmit : Option Bool
  panicFlag : Option PanicKind
deriving DecidableEq

def init (numWorkers : Nat) : St :=
  { workers := List.replicate numWorkers WStatus.idle,
    cancelled := false, tasksClosed := false, resultsClosed := false,
    sub := SubStatus.sIdle, nextTask := 0, submitted := [], delivered := [],
    finished := [], lastSubmit := none, panicFlag := none }

inductive Act where
  | stop
  | submitCheck
  | submitEnq (w : Nat)
  | submitRejected
  | submitPanic
  | finish (w : Nat)
  | deliver (w : Nat)
  | panicSend (w : Nat)
  | exitCancel (w : Nat)
  | exitClosed (w : Nat)
  | closeTasks
  | closeResults
deriving DecidableEq

/-- Gate of every step: a state that has panicked takes no further
step. -/
def gate (s : St) (r : Option St) : Option St :=
  if s.panicFlag = none then r else none

/-- One atomic step of the pool.  none means the action is not enabled
in the given state. -/
def step (cfg : Cfg) (s : St) : Act → Option St
  | .stop => gate s (some { s with cancelled := true })
  | .submitCheck => gate s <|
    if s.sub = SubStatus.sIdle then
      if s.cancelled then some { s with lastSubmit := some false }
      else some { s with sub := SubStatus.sChecked }
    else none
  | .submitEnq w => gate s <|
    if s.sub = SubStatus.sChecked ∧ s.tasksClosed = false ∧
        s.workers.get? w = some WStatus.idle then
      some { s with
        workers := s.workers.set w (WStatus.running s.nextTask),
        sub := SubStatus.sIdle,
        nextTask := s.nextTask + 1,
        submitted := s.submitted ++ [s.nextTask],
        lastSubmit := some true }
    else none
  | .submitRejected => gate s <|
    if s.sub = SubStatus.sChecked ∧ s.cancelled then
      some { s with sub := SubStatus.sIdle, lastSubmit := some false }
    else none
  | .submitPanic => gate s <|
    if s.sub = SubStatus.sChecked ∧ s.tasksClosed then
      some { s with panicFlag := some PanicKind.sendClosedTasks }
    else none
  | .finish w => gate s <|
    match s.workers.get? w with
    | some (WStatus.running i) =>
      some { s with
        workers := s.workers.set w (WStatus.sending i),
        finished := s.finished ++ [i],
        cancelled := s.cancelled || (cfg.outcome i && cfg.stopOnError) }
    | _ => none
  | .deliver w => gate s <|
    match s.workers.get? w with
    | some (WStatus.sending i) =>
      if s.resultsClosed = false then
        some { s with
          workers := s.workers.set w WStatus.idle,
          delivered := s.delivered ++ [i] }
      else none
    | _ => none
  | .panicSend w => gate s <|
    match s.workers.get? w with
    | some (WStatus.sending _) =>
      if s.resultsClosed then
        some { s with panicFlag := some PanicKind.sendClosedResults }
      else none
    | _ => none
  | .exitCancel w => gate s <|
    if s.workers.get? w = some WStatus.idle ∧ s.cancelled then
      some { s with workers := s.workers.set w WStatus.exited }
    else none
  | .exitClosed w => gate s <|
    if s.workers.get? w = some WStatus.idle ∧ s.tasksClosed then
      some { s with workers := s.workers.set w WStatus.exited }
    else none
  | .closeTasks => gate s <|
    if s.cancelled ∧ s.tasksClosed = false then
      some { s with tasksClosed := true }
    else none
  | .closeResults => gate s <|
    if s.tasksClosed ∧ s.resultsClosed = false then
      some { s with resultsClosed := true }
    else none

/-- Run of a sequence of actions from a state. -/
def run (cfg : Cfg) (s : St) : List Act → Option St
  | [] => some s
  | a :: rest => (step cfg s a).bind (fun s2 => run cfg s2 rest)

/-- Task indices currently held by the workers. -/
def taskOf : WStatus → Option Nat
  | WStatus.running i => some i
  | WStatus.sending i => some i
  | _ => none

def inFlight (ws : List WStatus) : List Nat := ws.filterMap taskOf

/-- Quiescent worker list: every worker is back on its select, none
holds a task. -/
def allIdle (ws : List WStatus) : Prop :=
  ∀ st ∈ ws, st = WStatus.idle ∨ st = WStatus.exited

instance (ws : List WStatus) : Decidable (allIdle ws) := by
  unfold allIdle; infer_instance

end WPA

/- ===== Section 5: worker pool, WaitGroup revision =====
   Model of the worker pool revision in which NewWorkerPool adds the
   worker count to the WaitGroup up front, each worker handles at most
   one work item and signals the WaitGroup on exit, the shutdown
   goroutine waits for every worker to exit before closing the results
   channel, and the result send is a select racing the cancellation
   signal, so a result can be dropped once the pool is cancelled.  The
   send on a closed results channel cannot happen here: that close
   needs every worker to have exited first. -/

namespace WPB

structure Cfg where
  stopOnError : Bool
  outcome : Nat → Bool

structure St where
  workers : List WPA.WStatus
  cancelled : Bool
  tasksClosed : Bool
  resultsClosed : Bool
  sub : WPA.SubStatus
  nextTask : Nat
  submitted : List Nat
  delivered : List Nat
  dropped : List Nat
  finished : List Nat
  lastSubmit : Option Bool
  panicFlag : Option WPA.PanicKind
deriving DecidableEq

def init (numWorkers : Nat) : St :=
  { workers := List.replicate numWorkers WPA.WStatus.idle,
    cancelled := false, tasksClosed := false, resultsClosed := false,
    sub := WPA.SubStatus.sIdle, nextTask := 0, submitted := [],
    delivered := [], dropped := [], finished := [], lastSubmit := none,
    panicFlag := none }

inductive Act where
  | stop
  | submitCheck
  | submitEnq (w : Nat)
  | submitRejected
  | submitPanic
  | finish (w : Nat)
  | deliver (w : Nat)
  | dropCancel (w : Nat)
  | exitCancel (w : Nat)
  | exitClosed (w : Nat)
  | closeTasks
  | closeResults
deriving DecidableEq

/-- Differences from the checked in revision: a
worker that delivered or dropped its result exits instead of looping,
the drop branch of the delivery select is enabled once the pool is
cancelled, and closing the results channel requires every worker to
have exited, the WaitGroup wait of the shutdown goroutine. -/
def gate (s : St) (r : Option St) : Option St :=
  if s.panicFlag = none then r else none

/-- One atomic step of the WaitGroup revision. -/
def step (cfg : Cfg) (s : St) : Act → Option St
  | .stop => gate s (some { s with cancelled := true })
  | .submitCheck => gate s <|
    if s.sub = WPA.SubStatus.sIdle then
      if s.cancelled then some { s with lastSubmit := some false }
      else some { s with sub := WPA.SubStatus.sChecked }
    else none
  | .submitEnq w => gate s <|
    if s.sub = WPA.SubStatus.sChecked ∧ s.tasksClosed = false ∧
        s.workers.get? w = some WPA.WStatus.idle then
      some { s with
        workers := s.workers.set w (WPA.WStatus.running s.nextTask),
        sub := WPA.SubStatus.sIdle,
        nextTask := s.nextTask + 1,
        submitted := s.submitted ++ [s.nextTask],
        lastSubmit := some true }
    else none
  | .submitRejected => gate s <|
    if s.sub = WPA.SubStatus.sChecked ∧ s.cancelled then
      some { s with sub := WPA.SubStatus.sIdle, lastSubmit := some false }
    else none
  | .submitPanic => gate s <|
    if s.sub = WPA.SubStatus.sChecked ∧ s.tasksClosed then
      some { s with panicFlag := some WPA.PanicKind.sendClosedTasks }
    else none
  | .finish w => gate s <|
    match s.workers.get? w with
    | some (WPA.WStatus.running i) =>
      some { s with
        workers := s.workers.set w (WPA.WStatus.sending i),
        finished := s.finished ++ [i],
        cancelled := s.cancelled || (cfg.outcome i && cfg.stopOnError) }
    | _ => none
  | .deliver w => gate s <|
    match s.workers.get? w with
    | some (WPA.WStatus.sending i) =>
      if s.resultsClosed = false then
        some { s with
          workers := s.workers.set w WPA.WStatus.exited,
          delivered := s.delivered ++ [i] }
      else none
    | _ => none
  | .dropCancel w => gate s <|
    match s.workers.get? w with
    | some (WPA.WStatus.sending i) =>
      if s.cancelled then
        some { s with
          workers := s.workers.set w WPA.WStatus.exited,
          dropped := s.dropped ++ [i] }
      else none
    | _ => none
  | .exitCancel w => gate s <|
    if s.workers.get? w = some WPA.WStatus.idle ∧ s.cancelled then
      some { s with workers := s.workers.set w WPA.WStatus.exited }
    else none
  | .exitClosed w => gate s <|
    if s.workers.get? w = some WPA.WStatus.idle ∧ s.tasksClosed then
      some { s with workers := s.workers.set w WPA.WStatus.exited }
    else none
  | .closeTasks => gate s <|
    if s.cancelled ∧ s.tasksClosed = false then
      some { s with tasksClosed := true }
    else none
  | .closeResults => gate s <|
    if s.tasksClosed ∧ s.resultsClosed = false ∧
        (∀ st ∈ s.workers, st = WPA.WStatus.exited) then
      some { s with resultsClosed := true }
    else none

def run (cfg : Cfg) (s : St) : List Act → Option St
  | [] => some s
  | a :: rest => (step cfg s a).bind (fun s2 => run cfg s2 rest)

end WPB

/- ===== Shared concrete configurations for the pool theorems ===== -/

/-- Pool configuration with fail fast off and every task succeeding. -/
def cfgOk : WPA.Cfg := { stopOnError := false, outcome := fun _ => false }

/-- Pool configuration with fail fast on and every task erroring. -/
def cfgErrB : WPB.Cfg := { stopOnError := true, outcome := fun _ => true }

/-- C1: in the checked in revision the shutdown goroutine closes the
results channel right after the tasks channel, without waiting for the
workers; the execution below submits one task, stops the pool while
the worker is running it, lets the shutdown goroutine perform both
closes, and the worker then sends its result on the already closed
results channel, a send on closed channel panic.  The results channel
is therefore closed before every worker has exited and a post close
send occurs, against the claim. -/
theorem wpa_close_races_worker_send :
    (WPA.run cfgOk (WPA.init 1)
      [WPA.Act.submitCheck, WPA.Act.submitEnq 0, WPA.Act.stop,
       WPA.Act.finish 0, WPA.Act.closeTasks, WPA.Act.closeResults,
       WPA.Act.panicSend 0]).map
      (fun s => (s.panicFlag, s.resultsClosed, s.delivered, s.workers)) =
    some (some WPA.PanicKind.sendClosedResults, true, [],
          [WPA.WStatus.sending 0]) := by
  rfl

/-- C4 counterexample: Submit is not panic free.  The call passes its
cancellation pre check, the pool is then stopped and the shutdown
goroutine closes the tasks channel, and the enqueue select of Submit
chooses the send on the now closed tasks channel, which panics. -/
theorem wpa_submit_panic_on_closed_tasks :
    (WPA.run cfgOk (WPA.init 1)
      [WPA.Act.submitCheck, WPA.Act.stop, WPA.Act.closeTasks,
       WPA.Act.submitPanic]).map (fun s => s.panicFlag) =
    some (some WPA.PanicKind.sendClosedTasks) := by
  rfl

/-- Helper for the Submit claim.  A Submit call that finds the lifetime
already cancelled at its first select returns the PoolClosed error
immediately: nothing is enqueued, nothing panics on this path, and the
call completes. -/
theorem wpa_submitCheck_rejected (cfg : WPA.Cfg) (s s2 : WPA.St)
    (hc : s.cancelled = true) (hidle : s.sub = WPA.SubStatus.sIdle)
    (hstep : WPA.step cfg s WPA.Act.submitCheck = some s2) :
    s2.lastSubmit = some false ∧ s2.sub = WPA.SubStatus.sIdle ∧
    s2.submitted = s.submitted ∧ s2.panicFlag = s.panicFlag := by
  have hp : s.panicFlag = none := by
    by_contra hne
    rw [WPA.step, WPA.gate, if_neg hne] at hstep
    exact absurd hstep (by simp)
  rw [WPA.step, WPA.gate, if_pos hp] at hstep
  rw [if_pos hidle] at hstep
  simp only [hc, if_true] at hstep
  injection hstep with h
  subst h
  exact ⟨rfl, hidle, rfl, rfl⟩

/-- Concrete cancelled pool state used to witness the Submit claim. -/
def subDemoState : WPA.St :=
  { workers := [WPA.WStatus.idle], cancelled := true, tasksClosed := false,
    resultsClosed := false, sub := WPA.SubStatus.sIdle, nextTask := 0,
    submitted := [], delivered := [], finished := [], lastSubmit := none,
    panicFlag := none }

/-- State after the rejected Submit call on the cancelled pool. -/
def subDemoState2 : WPA.St :=
  { subDemoState with lastSubmit := some false }

/-- State of a pool created with zero workers on which a Submit call
has passed its cancellation pre check and is now blocked in its enqueue
select: the unbuffered tasks channel has no receiver, so only
cancellation could release the call. -/
def wpaStuckState : WPA.St :=
  { workers := [], cancelled := false, tasksClosed := false,
    resultsClosed := false, sub := WPA.SubStatus.sChecked, nextTask := 0,
    submitted := [], delivered := [], finished := [], lastSubmit := none,
    panicFlag := none }

/-- From the blocked Submit state of the zero worker pool, every action
other than stop is disabled: there is no worker to rendezvous with, the
pool is not cancelled, and no channel is closed, so the whole system
can only wait. -/
theorem wpa_stuck_step_none (cfg : WPA.Cfg) (a : WPA.Act)
    (ha : a ≠ WPA.Act.stop) : WPA.step cfg wpaStuckState a = none := by
  cases a with
  | stop => exact absurd rfl ha
  | submitCheck => rfl
  | submitEnq w => rfl
  | submitRejected => rfl
  | submitPanic => rfl
  | finish w => rfl
  | deliver w => rfl
  | panicSend w => rfl
  | exitCancel w => rfl
  | exitClosed w => rfl
  | closeTasks => rfl
  | closeResults => rfl

/-- C4 (amended): a Submit call finding the lifetime already cancelled
at its initial select returns the PoolClosed error without enqueuing
and without panicking on that path.  The two unconditional guarantees
of the original claim both fail on the code: Submit can panic, the
recorded counterexample execution sends on the closed tasks channel,
and Submit can block forever, the last conjunct: a call that passed
its pre check on a pool with no receiving worker, reached by a real
Submit on a pool created with zero workers, never completes under any
continuation in which the pool is not stopped. -/
theorem wpa_submit_rejected_when_cancelled :
    (∀ (cfg : WPA.Cfg) (s s2 : WPA.St),
        s.cancelled = true → s.sub = WPA.SubStatus.sIdle →
        WPA.step cfg s WPA.Act.submitCheck = some s2 →
        s2.lastSubmit = some false ∧ s2.sub = WPA.SubStatus.sIdle ∧
        s2.submitted = s.submitted ∧ s2.panicFlag = s.panicFlag) ∧
    (∀ cfg : WPA.Cfg,
        WPA.run cfg (WPA.init 0) [WPA.Act.submitCheck] = some wpaStuckState) ∧
    (∀ (cfg : WPA.Cfg) (acts : List WPA.Act) (s : WPA.St),
        WPA.Act.stop ∉ acts →
        WPA.run cfg wpaStuckState acts = some s →
        s.sub = WPA.SubStatus.sChecked) := by
  refine ⟨wpa_submitCheck_rejected, fun cfg => rfl, ?_⟩
  intro cfg acts s hns hrun
  cases acts with
  | nil =>
    simp only [WPA.run] at hrun
    injection hrun with h
    subst h
    rfl
  | cons a rest =>
    have ha : a ≠ WPA.Act.stop := fun h => hns (h ▸ List.mem_cons_self a rest)
    simp only [WPA.run] at hrun
    rw [wpa_stuck_step_none cfg a ha] at hrun
    exact absurd hrun (by simp)

/-- Witness for the amended Submit claim: the rejected call at a
concrete cancelled state, and the blocked call of the zero worker pool
still pending after the empty continuation. -/
theorem wpa_submit_rejected_when_cancelled_witness :
    WPA.step cfgOk subDemoState WPA.Act.submitCheck = some subDemoState2 ∧
    subDemoState2.lastSubmit = some false ∧
    subDemoState2.panicFlag = none ∧
    WPA.run cfgOk (WPA.init 0) [WPA.Act.submitCheck] = some wpaStuckState ∧
    wpaStuckState.sub = WPA.SubStatus.sChecked :=
  ⟨by rfl,
   (wpa_submit_rejected_when_cancelled.1 cfgOk subDemoState subDemoState2
      rfl rfl (by rfl)).1,
   by rfl,
   wpa_submit_rejected_when_cancelled.2.1 cfgOk,
   wpa_submit_rejected_when_cancelled.2.2 cfgOk [] wpaStuckState (by decide)
     (by rfl)⟩

/-- C3 counterexample: in the WaitGroup revision the result send is a
select racing the cancellation signal; a fail fast error cancels the
pool before that select runs, so the select may take the cancellation
branch and the erroring result is dropped.  The execution below runs
one erroring task to completion, drops its result, and finishes the
full shutdown: the pool ends with the results channel closed and the
erroring result never delivered. -/
theorem wpb_failfast_error_result_dropped :
    (WPB.run cfgErrB (WPB.init 1)
      [WPB.Act.submitCheck, WPB.Act.submitEnq 0, WPB.Act.finish 0,
       WPB.Act.dropCancel 0, WPB.Act.closeTasks, WPB.Act.closeResults]).map
      (fun s => (s.delivered, s.dropped, s.finished, s.cancelled,
                 s.resultsClosed)) =
    some ([], [0], [0], true, true) := by
  rfl

/-- Preservation lemma: one step of the WaitGroup revision keeps the
fact that a finished erroring task implies a cancelled pool, when fail
fast is on.  Cancellation is never cleared and the finish step of an
erroring task sets it. -/
theorem wpb_step_cancel_inv (cfg : WPB.Cfg) (hstop : cfg.stopOnError = true)
    (s s1 : WPB.St) (a : WPB.Act) (hstep : WPB.step cfg s a = some s1)
    (hinv : ∀ i ∈ s.finished, cfg.outcome i = true → s.cancelled = true) :
    ∀ i ∈ s1.finished, cfg.outcome i = true → s1.cancelled = true := by
  have hp : s.panicFlag = none := by
    by_contra hne
    cases a <;>
      (rw [WPB.step, WPB.gate, if_neg hne] at hstep; exact absurd hstep (by simp))
  cases a with
  | stop =>
    rw [WPB.step, WPB.gate, if_pos hp] at hstep
    injection hstep with h
    subst h
    intro i hi hout
    rfl
  | submitCheck =>
    rw [WPB.step, WPB.gate, if_pos hp] at hstep
    split at hstep
    · split at hstep
      · injection hstep with h; subst h; exact hinv
      · injection hstep with h; subst h; exact hinv
    · exact absurd hstep (by simp)
  | submitEnq w =>
    rw [WPB.step, WPB.gate, if_pos hp] at hstep
    split at hstep
    · injection hstep with h; subst h; exact hinv
    · exact absurd hstep (by simp)
  | submitRejected =>
    rw [WPB.step, WPB.gate, if_pos hp] at hstep
    split at hstep
    · injection hstep with h; subst h; exact hinv
    · exact absurd hstep (by simp)
  | submitPanic =>
    rw [WPB.step, WPB.gate, if_pos hp] at hstep
    split at hstep
    · injection hstep with h; subst h; exact hinv
    · exact absurd hstep (by simp)
  | finish w =>
    rw [WPB.step, WPB.gate, if_pos hp] at hstep
    rcases hget : s.workers.get? w with _ | st
    · rw [hget] at hstep
      exact absurd hstep (by simp)
    · rw [hget] at hstep
      cases st with
      | idle => exact absurd hstep (by simp)
      | exited => exact absurd hstep (by simp)
      | sending i => exact absurd hstep (by simp)
      | running i =>
        injection hstep with h
        subst h
        intro j hj hout
        rcases List.mem_append.mp hj with hj1 | hj2
        · have hc := hinv j hj1 hout
          simp [hc]
        · have hji : j = i := by simpa using hj2
          subst hji
          simp [hout, hstop]
  | deliver w =>
    rw [WPB.step, WPB.gate, if_pos hp] at hstep
    rcases hget : s.workers.get? w with _ | st
    · rw [hget] at hstep
      exact absurd hstep (by simp)
    · rw [hget] at hstep
      cases st with
      | idle => exact absurd hstep (by simp)
      | exited => exact absurd hstep (by simp)
      | running i => exact absurd hstep (by simp)
      | sending i =>
        split at hstep
        · split at hstep
          · injection hstep with h; subst h; exact hinv
          · exact absurd hstep (by simp)
        · rename_i hno
          exact (hno i rfl).elim
  | dropCancel w =>
    rw [WPB.step, WPB.gate, if_pos hp] at hstep
    rcases hget : s.workers.get? w with _ | st
    · rw [hget] at hstep
      exact absurd hstep (by simp)
    · rw [hget] at hstep
      cases st with
      | idle => exact absurd hstep (by simp)
      | exited => exact absurd hstep (by simp)
      | running i => exact absurd hstep (by simp)
      | sending i =>
        split at hstep
        · split at hstep
          · injection hstep with h; subst h; exact hinv
          · exact absurd hstep (by simp)
        · rename_i hno
          exact (hno i rfl).elim
  | exitCancel w =>
    rw [WPB.step, WPB.gate, if_pos hp] at hstep
    split at hstep
    · injection hstep with h; subst h; exact hinv
    · exact absurd hstep (by simp)
  | exitClosed w =>
    rw [WPB.step, WPB.gate, if_pos hp] at hstep
    split at hstep
    · injection hstep with h; subst h; exact hinv
    · exact absurd hstep (by simp)
  | closeTasks =>
    rw [WPB.step, WPB.gate, if_pos hp] at hstep
    split at hstep
    · injection hstep with h; subst h; exact hinv
    · exact absurd hstep (by simp)
  | closeResults =>
    rw [WPB.step, WPB.gate, if_pos hp] at hstep
    split at hstep
    · injection hstep with h; subst h; exact hinv
    · exact absurd hstep (by simp)

/-- Run level form of the preservation lemma. -/
theorem wpb_run_cancel_inv (cfg : WPB.Cfg) (hstop : cfg.stopOnError = true) :
    ∀ (acts : List WPB.Act) (s0 s : WPB.St),
    WPB.run cfg s0 acts = some s →
    (∀ i ∈ s0.finished, cfg.outcome i = true → s0.cancelled = true) →
    (∀ i ∈ s.finished, cfg.outcome i = true → s.cancelled = true) := by
  intro acts
  induction acts with
  | nil =>
    intro s0 s hrun hinv
    simp only [WPB.run] at hrun
    injection hrun with h
    subst h
    exact hinv
  | cons a rest ih =>
    intro s0 s hrun hinv
    simp only [WPB.run] at hrun
    rcases hstep : WPB.step cfg s0 a with _ | s1
    · rw [hstep] at hrun
      exact absurd hrun (by simp)
    · rw [hstep] at hrun
      exact ih s1 s hrun (wpb_step_cancel_inv cfg hstop s0 s1 a hstep hinv)

/-- C3 (amended): with fail fast on, any task function that returned an
error has cancelled the pool: in every reachable state every finished
erroring task implies the cancelled flag.  The delivery of the erroring
result is a separate select racing this very cancellation and can be
dropped, as the recorded counterexample execution shows; on schedules
whose delivery select takes the send branch the erroring result is
delivered. -/
theorem wpb_failfast_cancels_pool (cfg : WPB.Cfg) (n : Nat)
    (acts : List WPB.Act) (s : WPB.St)
    (hrun : WPB.run cfg (WPB.init n) acts = some s)
    (hstop : cfg.stopOnError = true) :
    ∀ i ∈ s.finished, cfg.outcome i = true → s.cancelled = true := by
  refine wpb_run_cancel_inv cfg hstop acts (WPB.init n) s hrun ?_
  intro i hi
  simp [WPB.init] at hi

/-- Actions of the witness run: submit one erroring task and let the
worker finish it. -/
def wpbDemoActs : List WPB.Act :=
  [WPB.Act.submitCheck, WPB.Act.submitEnq 0, WPB.Act.finish 0]

/-- State after the witness run: the worker holds the erroring result
and the pool is already cancelled. -/
def wpbDemoFinal : WPB.St :=
  { workers := [WPA.WStatus.sending 0], cancelled := true, tasksClosed := false,
    resultsClosed := false, sub := WPA.SubStatus.sIdle, nextTask := 1,
    submitted := [0], delivered := [], dropped := [], finished := [0],
    lastSubmit := some true, panicFlag := none }

/-- Witness for the fail fast cancellation theorem on a concrete run. -/
theorem wpb_failfast_cancels_pool_witness :
    WPB.run cfgErrB (WPB.init 1) wpbDemoActs = some wpbDemoFinal ∧
    cfgErrB.outcome 0 = true ∧ wpbDemoFinal.cancelled = true :=
  ⟨by rfl, rfl,
   wpb_failfast_cancels_pool cfgErrB 1 wpbDemoActs wpbDemoFinal (by rfl) rfl 0
     (by decide) rfl⟩

/- ===== C6: the 404 scenario ===== -/

/-- Environment of the 404 run: the URL parses, the GET completes with
status 404, everything else is unreachable. -/
def env404 : PipelineEnv :=
  { urlParse := fun _ => some { scheme := "http", hostname := "x.test", port := "" },
    fetchGet := fun _ => some ("not found", 404),
    parseHtml := fun _ => none,
    resolve := fun _ _ => none,
    fetchHead := fun _ => none,
    versionOf := fun _ => "" }

/-- C6: when the primary fetch returns status 404 the pipeline fails
after the prerequisite stage with a non nil error and no stage two task
ever executes, but the status code field of the returned accumulator is
0, not 404: getWebPageTask returns its error before the only write of
that field, so the claimed value 404 is never stored. -/
theorem analyze_404_fails_with_status_unset :
    (analyze env404 "http://x.test").errOut = some (TaskErr.badStatus 404) ∧
    (analyze env404 "http://x.test").executed = ["parseUrl", "getWebPage"] ∧
    (analyze env404 "http://x.test").result.statusCode = 0 ∧
    (analyze env404 "http://x.test").result.statusCode ≠ 404 := by
  refine ⟨rfl, rfl, rfl, ?_⟩
  decide

/- ===== C5: reachability aggregation ===== -/

/-- Base URL of the concrete demonstration document. -/
def baseDemo : AUrl := { scheme := "http", hostname := "x.test", port := "" }

/-- Resolver of the demonstration: the one absolute href resolves to
its parsed form, everything else fails to resolve. -/
def resolveDemo : AUrl → String → Option AUrl := fun _ href =>
  if href = "http://y.test" then
    some { scheme := "http", hostname := "y.test", port := "" }
  else none

/-- Demonstration document: a single anchor to http://y.test. -/
def demoDoc : HNode :=
  HNode.mk NodeType.elementNode "a" [("href", "http://y.test")] HForest.nil

/-- Probe oracle under which every HEAD probe completes with 200. -/
def fetchAllOk : ProbeOracle := fun _ => some 200

/-- Links collected from the demonstration document. -/
def demoLinks : List LinkInfo := collectLinksNode resolveDemo baseDemo demoDoc

/-- C5 counterexample: the probes and the six analysis tasks share one
pool and one results channel, and the aggregation loop counts whatever
it consumes.  With one link whose probe succeeds, K = 0 and the loop
applied to the probe results reports 0; but when the one consumed
result is another stage two task payload carried by the shared channel,
here the title string, the loop reports 1 and not K. -/
theorem reachability_count_skewed_by_shared_channel :
    demoLinks.length = 1 ∧
    failingCount fetchAllOk demoLinks = 0 ∧
    inaccessibleCountLoop (probePayloads fetchAllOk demoLinks)
      demoLinks.length = 0 ∧
    inaccessibleCountLoop [Payload.strRes "Test Page"] demoLinks.length = 1 :=
  ⟨rfl, rfl, rfl, rfl⟩

/-- C5 (amended): when the m results the aggregation loop consumes are
exactly the probe results of the m links, in any delivery order, the
reported count equals the number of failing links.  Order independence
makes the count independent of the concurrency ceiling of the pool
delivering the probes. -/
theorem reachability_count_of_probe_results
    (fetch : ProbeOracle) (links : List LinkInfo) (rs : List Payload)
    (hperm : rs.Perm (probePayloads fetch links)) :
    inaccessibleCountLoop rs links.length = failingCount fetch links := by
  unfold inaccessibleCountLoop failingCount
  have hlen : rs.length = links.length := by
    rw [hperm.length_eq]
    simp [probePayloads]
  rw [← hlen, List.take_length]
  rw [hperm.countP_eq]
  unfold probePayloads
  rw [List.countP_map]
  rfl

/-- Witness for the aggregation theorem at the demonstration links. -/
theorem reachability_count_of_probe_results_witness :
    (probePayloads fetchAllOk demoLinks).Perm
      (probePayloads fetchAllOk demoLinks) ∧
    inaccessibleCountLoop (probePayloads fetchAllOk demoLinks)
      demoLinks.length = failingCount fetchAllOk demoLinks :=
  ⟨List.Perm.refl _,
   reachability_count_of_probe_results fetchAllOk demoLinks _
     (List.Perm.refl _)⟩

/- ===== C7 and C9: link collection characterization ===== -/

/-- Eligibility of an anchor node together with the entry it produces:
an element named a, a non empty href, a successful resolution, an http
or https scheme, and the produced entry carries the resolved URL with
the canonical host comparison as its classification flag. -/
def eligibleEntry (resolve : AUrl → String → Option AUrl) (base : AUrl)
    (n : HNode) (li : LinkInfo) : Prop :=
  n.ntype = NodeType.elementNode ∧ n.data = "a" ∧ getHref n.attrs ≠ "" ∧
  ∃ u, resolve base (getHref n.attrs) = some u ∧
    (u.scheme = "http" ∨ u.scheme = "https") ∧
    li = { url := u,
           isInternal := decide (getCanonicalHost u = getCanonicalHost base) }

mutual
/-- Every entry collected from a tree comes from an eligible anchor
node of that tree. -/
theorem collectLinksNode_mem (resolve : AUrl → String → Option AUrl)
    (base : AUrl) :
    ∀ (n : HNode) (li : LinkInfo), li ∈ collectLinksNode resolve base n →
      ∃ a, a ∈ allNodes n ∧ eligibleEntry resolve base a li
  | .mk t d a cs, li => by
    intro hmem
    rw [collectLinksNode] at hmem
    split at hmem
    · rename_i hA
      split at hmem
      · simp at hmem
      · rename_i hH
        split at hmem
        · simp at hmem
        · rename_i u heq
          split at hmem
          · rename_i hS
            rcases List.mem_cons.mp hmem with h1 | h2
            · refine ⟨HNode.mk t d a cs, by simp [allNodes], ?_⟩
              exact ⟨hA.1, hA.2, hH, u, heq, hS, h1⟩
            · obtain ⟨a2, ha2, he⟩ := collectLinksF_mem resolve base cs li h2
              refine ⟨a2, ?_, he⟩
              simp [allNodes]
              exact Or.inr ha2
          · simp at hmem
    · rename_i hA
      obtain ⟨a2, ha2, he⟩ := collectLinksF_mem resolve base cs li hmem
      refine ⟨a2, ?_, he⟩
      simp [allNodes]
      exact Or.inr ha2

/-- Forest version of the collection characterization. -/
theorem collectLinksF_mem (resolve : AUrl → String → Option AUrl)
    (base : AUrl) :
    ∀ (f : HForest) (li : LinkInfo), li ∈ collectLinksF resolve base f →
      ∃ a, a ∈ allNodesF f ∧ eligibleEntry resolve base a li
  | .nil, li => by
    intro h
    rw [collectLinksF] at h
    simp at h
  | .cons n rest, li => by
    intro h
    rw [collectLinksF] at h
    rcases List.mem_append.mp h with h1 | h2
    · obtain ⟨a2, ha2, he⟩ := collectLinksNode_mem resolve base n li h1
      refine ⟨a2, ?_, he⟩
      simp [allNodesF]
      exact Or.inl ha2
    · obtain ⟨a2, ha2, he⟩ := collectLinksF_mem resolve base rest li h2
      refine ⟨a2, ?_, he⟩
      simp [allNodesF]
      exact Or.inr ha2
end

/-- C9: every link entry collected by collectLinks originates from an
anchor element node with a non empty href that resolves to an http or
https URL.  An anchor element missing any of those conditions
contributes no entry, so it is counted neither internal nor external by
countLinksTask and is never probed by checkLinksAccessibilityTask, both
of which consume only the collected list. -/
theorem collect_links_excludes_ineligible_anchors
    (resolve : AUrl → String → Option AUrl) (base : AUrl) (doc : HNode)
    (li : LinkInfo) (hmem : li ∈ collectLinksNode resolve base doc) :
    ∃ a, a ∈ allNodes doc ∧ eligibleEntry resolve base a li :=
  collectLinksNode_mem resolve base doc li hmem

/-- Witness for the collection characterization on the demonstration
document. -/
theorem collect_links_excludes_ineligible_anchors_witness :
    ({ url := { scheme := "http", hostname := "y.test", port := "" },
       isInternal := false } : LinkInfo) ∈ demoLinks ∧
    ∃ a, a ∈ allNodes demoDoc ∧ eligibleEntry resolveDemo baseDemo a
      { url := { scheme := "http", hostname := "y.test", port := "" },
        isInternal := false } :=
  ⟨by decide,
   collect_links_excludes_ineligible_anchors resolveDemo baseDemo demoDoc
     { url := { scheme := "http", hostname := "y.test", port := "" },
       isInternal := false } (by decide)⟩

/-- C7: the classification flag of every collected link is exactly
canonical host equality against the base, and the canonical host
strips the port precisely when it is the default of the scheme: port
80 of http and port 443 of https disappear, while port 8080 of http
makes the canonical host differ from the portless one for every
hostname. -/
theorem link_classification_canonical_host :
    (∀ (resolve : AUrl → String → Option AUrl) (base : AUrl) (doc : HNode)
        (li : LinkInfo), li ∈ collectLinksNode resolve base doc →
        li.isInternal =
          decide (getCanonicalHost li.url = getCanonicalHost base)) ∧
    (∀ h : String,
        getCanonicalHost { scheme := "http", hostname := h, port := "80" } =
        getCanonicalHost { scheme := "http", hostname := h, port := "" }) ∧
    (∀ h : String,
        getCanonicalHost { scheme := "https", hostname := h, port := "443" } =
        getCanonicalHost { scheme := "https", hostname := h, port := "" }) ∧
    (∀ h : String,
        getCanonicalHost { scheme := "http", hostname := h, port := "8080" } ≠
        getCanonicalHost { scheme := "http", hostname := h, port := "" }) := by
  refine ⟨?_, ?_, ?_, ?_⟩
  · intro resolve base doc li hmem
    obtain ⟨a, ha, he⟩ := collectLinksNode_mem resolve base doc li hmem
    obtain ⟨_, _, _, u, _, _, hli⟩ := he
    subst hli
    rfl
  · intro h
    simp [getCanonicalHost]
  · intro h
    simp [getCanonicalHost]
  · intro h hcontra
    simp only [getCanonicalHost] at hcontra
    norm_num at hcontra
    have hc2 := hcontra (by decide) (by decide) (by decide)
    have hlen := congrArg String.length hc2
    rw [String.length_append, String.length_append] at hlen
    have h1 : (":" : String).length = 1 := rfl
    have h2 : ("8080" : String).length = 4 := rfl
    rw [h1, h2] at hlen
    omega

/-- Witness for the classification theorem at the demonstration link
and hostname. -/
theorem link_classification_canonical_host_witness :
    (({ url := { scheme := "http", hostname := "y.test", port := "" },
        isInternal := false } : LinkInfo).isInternal =
      decide (getCanonicalHost
          ({ url := { scheme := "http", hostname := "y.test", port := "" },
             isInternal := false } : LinkInfo).url =
        getCanonicalHost baseDemo)) ∧
    getCanonicalHost { scheme := "http", hostname := "x.test", port := "80" } =
      getCanonicalHost { scheme := "http", hostname := "x.test", port := "" } ∧
    getCanonicalHost { scheme := "http", hostname := "x.test", port := "8080" } ≠
      getCanonicalHost { scheme := "http", hostname := "x.test", port := "" } :=
  ⟨link_classification_canonical_host.1 resolveDemo baseDemo demoDoc _
     (by decide),
   link_classification_canonical_host.2.1 "x.test",
   link_classification_canonical_host.2.2.2 "x.test"⟩

/- ===== C8: heading counts ===== -/

/-- Read of a key from the association list modelling the Go map. -/
def lookupN : List (String × Nat) → String → Option Nat
  | [], _ => none
  | (k, v) :: rest, q => if k = q then some v else lookupN rest q

/-- Bumping a present key leaves the key list unchanged. -/
theorem bump_keys (m : List (String × Nat)) (k : String)
    (h : k ∈ m.map Prod.fst) : (bump m k).map Prod.fst = m.map Prod.fst := by
  induction m with
  | nil => simp at h
  | cons p rest ih =>
    obtain ⟨k2, v⟩ := p
    by_cases hk : k2 = k
    · simp [bump, hk]
    · have hk3 : k ∈ rest.map Prod.fst := by
        rcases List.mem_cons.mp h with h1 | h2
        · exact absurd h1.symm hk
        · exact h2
      simp [bump, hk, ih hk3]

/-- Bumping a key increments its first entry. -/
theorem bump_lookup_eq (m : List (String × Nat)) (k : String) (v : Nat)
    (h : lookupN m k = some v) : lookupN (bump m k) k = some (v + 1) := by
  induction m with
  | nil => simp [lookupN] at h
  | cons p rest ih =>
    obtain ⟨k2, w⟩ := p
    by_cases hk : k2 = k
    · rw [lookupN, if_pos hk] at h
      injection h with hv
      subst hv
      simp [bump, hk, lookupN]
    · rw [lookupN, if_neg hk] at h
      simp [bump, hk, lookupN, ih h]

/-- Bumping one key leaves every other key unchanged. -/
theorem bump_lookup_ne (m : List (String × Nat)) (k q : String)
    (h : q ≠ k) : lookupN (bump m k) q = lookupN m q := by
  induction m with
  | nil =>
    have h2 : ¬(k = q) := fun hkq => h hkq.symm
    simp [bump, lookupN, h2]
  | cons p rest ih =>
    obtain ⟨k2, w⟩ := p
    by_cases hk : k2 = k
    · subst hk
      have h2 : ¬(k2 = q) := fun hkq => h hkq.symm
      simp [bump, lookupN, h2]
    · simp [bump, hk, lookupN, ih]

mutual
/-- The walk of countHeadingsTask never changes the key list of the
counts map when the six heading keys are present. -/
theorem countHeadingsNode_keys :
    ∀ (n : HNode) (m : List (String × Nat)),
      (∀ x ∈ sixHeadings, x ∈ m.map Prod.fst) →
      (countHeadingsNode m n).map Prod.fst = m.map Prod.fst
  | .mk t d a cs, m => by
    intro hkeys
    rw [countHeadingsNode]
    by_cases hc : t = NodeType.elementNode ∧ d ∈ sixHeadings
    · rw [if_pos hc]
      have hd : d ∈ m.map Prod.fst := hkeys d hc.2
      rw [countHeadingsF_keys cs (bump m d) ?_, bump_keys m d hd]
      intro x hx
      rw [bump_keys m d hd]
      exact hkeys x hx
    · rw [if_neg hc]
      exact countHeadingsF_keys cs m hkeys

/-- Forest version of the key preservation lemma. -/
theorem countHeadingsF_keys :
    ∀ (f : HForest) (m : List (String × Nat)),
      (∀ x ∈ sixHeadings, x ∈ m.map Prod.fst) →
      (countHeadingsF m f).map Prod.fst = m.map Prod.fst
  | .nil, m => by
    intro hkeys
    rw [countHeadingsF]
  | .cons n rest, m => by
    intro hkeys
    rw [countHeadingsF]
    have h1 := countHeadingsNode_keys n m hkeys
    rw [countHeadingsF_keys rest (countHeadingsNode m n) ?_, h1]
    intro x hx
    rw [h1]
    exact hkeys x hx
end

mutual
/-- The counts map after walking a tree holds, at each heading key, its
previous value plus the number of matching element nodes of the
tree. -/
theorem countHeadingsNode_lookup :
    ∀ (n : HNode) (m : List (String × Nat)) (tag : String) (v : Nat),
      tag ∈ sixHeadings →
      (∀ x ∈ sixHeadings, x ∈ m.map Prod.fst) →
      lookupN m tag = some v →
      lookupN (countHeadingsNode m n) tag = some (v + countTag tag n)
  | .mk t d a cs, m, tag, v => by
    intro htag hkeys hv
    rw [countHeadingsNode, countTag]
    by_cases hc : t = NodeType.elementNode ∧ d ∈ sixHeadings
    · rw [if_pos hc]
      by_cases hd : d = tag
      · subst hd
        rw [if_pos ⟨hc.1, rfl⟩]
        have hb := bump_lookup_eq m d v hv
        have hbk : ∀ x ∈ sixHeadings, x ∈ (bump m d).map Prod.fst := by
          intro x hx
          rw [bump_keys m d (hkeys d hc.2)]
          exact hkeys x hx
        rw [countHeadingsF_lookup cs (bump m d) d (v + 1) htag hbk hb]
        congr 1
        omega
      · rw [if_neg (fun hh : t = NodeType.elementNode ∧ d = tag => hd hh.2)]
        have hb := bump_lookup_ne m d tag (fun h2 => hd h2.symm)
        have hbk : ∀ x ∈ sixHeadings, x ∈ (bump m d).map Prod.fst := by
          intro x hx
          rw [bump_keys m d (hkeys d hc.2)]
          exact hkeys x hx
        rw [countHeadingsF_lookup cs (bump m d) tag v htag hbk (hb.trans hv)]
        congr 1
        omega
    · rw [if_neg hc]
      have hne : ¬(t = NodeType.elementNode ∧ d = tag) := by
        intro hh
        exact hc ⟨hh.1, hh.2 ▸ htag⟩
      rw [if_neg hne]
      rw [countHeadingsF_lookup cs m tag v htag hkeys hv]
      congr 1
      omega

/-- Forest version of the counting lemma. -/
theorem countHeadingsF_lookup :
    ∀ (f : HForest) (m : List (String × Nat)) (tag : String) (v : Nat),
      tag ∈ sixHeadings →
      (∀ x ∈ sixHeadings, x ∈ m.map Prod.fst) →
      lookupN m tag = some v →
      lookupN (countHeadingsF m f) tag = some (v + countTagF tag f)
  | .nil, m, tag, v => by
    intro _ _ hv
    rw [countHeadingsF, countTagF]
    simpa using hv
  | .cons n rest, m, tag, v => by
    intro htag hkeys hv
    rw [countHeadingsF, countTagF]
    have h1 := countHeadingsNode_lookup n m tag v htag hkeys hv
    have hk1 : ∀ x ∈ sixHeadings, x ∈ (countHeadingsNode m n).map Prod.fst := by
      intro x hx
      rw [countHeadingsNode_keys n m hkeys]
      exact hkeys x hx
    rw [countHeadingsF_lookup rest (countHeadingsNode m n) tag
      (v + countTag tag n) htag hk1 h1]
    congr 1
    omega
end

/-- C8: the heading counts map of countHeadingsTask has exactly the six
heading tag names as its keys, in order, and the value at each key is
the number of element nodes of that tag in the document, zero when the
tag is absent. -/
theorem count_headings_exact_keys_and_values (doc : HNode) :
    (countHeadings doc).map Prod.fst = sixHeadings ∧
    lookupN (countHeadings doc) "h1" = some (countTag "h1" doc) ∧
    lookupN (countHeadings doc) "h2" = some (countTag "h2" doc) ∧
    lookupN (countHeadings doc) "h3" = some (countTag "h3" doc) ∧
    lookupN (countHeadings doc) "h4" = some (countTag "h4" doc) ∧
    lookupN (countHeadings doc) "h5" = some (countTag "h5" doc) ∧
    lookupN (countHeadings doc) "h6" = some (countTag "h6" doc) := by
  have hkeys0 : ∀ x ∈ sixHeadings,
      x ∈ ([("h1", 0), ("h2", 0), ("h3", 0), ("h4", 0), ("h5", 0),
            ("h6", 0)] : List (String × Nat)).map Prod.fst := by
    decide
  refine ⟨?_, ?_, ?_, ?_, ?_, ?_, ?_⟩
  · rw [countHeadings, countHeadingsNode_keys doc _ hkeys0]
    rfl
  all_goals
    rw [countHeadings]
  · simpa using countHeadingsNode_lookup doc _ "h1" 0 (by decide) hkeys0 rfl
  · simpa using countHeadingsNode_lookup doc _ "h2" 0 (by decide) hkeys0 rfl
  · simpa using countHeadingsNode_lookup doc _ "h3" 0 (by decide) hkeys0 rfl
  · simpa using countHeadingsNode_lookup doc _ "h4" 0 (by decide) hkeys0 rfl
  · simpa using countHeadingsNode_lookup doc _ "h5" 0 (by decide) hkeys0 rfl
  · simpa using countHeadingsNode_lookup doc _ "h6" 0 (by decide) hkeys0 rfl

/- ===== C10: login form detection ===== -/

mutual
/-- formHasPassword is true exactly when the subtree, the root node
included, holds an input element with a type password attribute. -/
theorem formHasPassword_iff :
    ∀ n : HNode, formHasPassword n = true ↔
      ∃ i, i ∈ allNodes n ∧ i.ntype = NodeType.elementNode ∧
        i.data = "input" ∧ attrHasPassword i.attrs = true
  | .mk t d a cs => by
    rw [formHasPassword]
    by_cases hc : t = NodeType.elementNode ∧ d = "input" ∧
        attrHasPassword a = true
    · rw [if_pos hc]
      constructor
      · intro _
        exact ⟨HNode.mk t d a cs, by simp [allNodes], hc.1, hc.2.1, hc.2.2⟩
      · intro _
        rfl
    · rw [if_neg hc]
      rw [formHasPasswordF_iff cs]
      constructor
      · rintro ⟨i, hi, hp⟩
        refine ⟨i, ?_, hp⟩
        simp [allNodes]
        exact Or.inr hi
      · rintro ⟨i, hi, hp⟩
        have hi2 : i = HNode.mk t d a cs ∨ i ∈ allNodesF cs := by
          simpa [allNodes] using hi
        rcases hi2 with rfl | hi3
        · exact absurd hp hc
        · exact ⟨i, hi3, hp⟩

/-- Forest version of the password input characterization. -/
theorem formHasPasswordF_iff :
    ∀ f : HForest, formHasPasswordF f = true ↔
      ∃ i, i ∈ allNodesF f ∧ i.ntype = NodeType.elementNode ∧
        i.data = "input" ∧ attrHasPassword i.attrs = true
  | .nil => by
    rw [formHasPasswordF]
    simp [allNodesF]
  | .cons n rest => by
    rw [formHasPasswordF]
    rw [Bool.or_eq_true, formHasPassword_iff n, formHasPasswordF_iff rest]
    constructor
    · rintro (⟨i, hi, hp⟩ | ⟨i, hi, hp⟩)
      · refine ⟨i, ?_, hp⟩
        simp [allNodesF]
        exact Or.inl hi
      · refine ⟨i, ?_, hp⟩
        simp [allNodesF]
        exact Or.inr hi
    · rintro ⟨i, hi, hp⟩
      have hi2 : i ∈ allNodes n ∨ i ∈ allNodesF rest := by
        simpa [allNodesF] using hi
      rcases hi2 with h1 | h2
      · exact Or.inl ⟨i, h1, hp⟩
      · exact Or.inr ⟨i, h2, hp⟩
end

mutual
/-- hasLoginForm is true exactly when some form element node of the
tree has formHasPassword true. -/
theorem hasLoginForm_iff :
    ∀ n : HNode, hasLoginForm n = true ↔
      ∃ f, f ∈ allNodes n ∧ f.ntype = NodeType.elementNode ∧
        f.data = "form" ∧ formHasPassword f = true
  | .mk t d a cs => by
    rw [hasLoginForm]
    by_cases hc : t = NodeType.elementNode ∧ d = "form" ∧
        formHasPassword (HNode.mk t d a cs) = true
    · rw [if_pos hc]
      constructor
      · intro _
        exact ⟨HNode.mk t d a cs, by simp [allNodes], hc.1, hc.2.1, hc.2.2⟩
      · intro _
        rfl
    · rw [if_neg hc]
      rw [hasLoginFormF_iff cs]
      constructor
      · rintro ⟨f, hf, hp⟩
        refine ⟨f, ?_, hp⟩
        simp [allNodes]
        exact Or.inr hf
      · rintro ⟨f, hf, hp⟩
        have hf2 : f = HNode.mk t d a cs ∨ f ∈ allNodesF cs := by
          simpa [allNodes] using hf
        rcases hf2 with rfl | hf3
        · exact absurd hp hc
        · exact ⟨f, hf3, hp⟩

/-- Forest version of the login form characterization. -/
theorem hasLoginFormF_iff :
    ∀ f : HForest, hasLoginFormF f = true ↔
      ∃ g, g ∈ allNodesF f ∧ g.ntype = NodeType.elementNode ∧
        g.data = "form" ∧ formHasPassword g = true
  | .nil => by
    rw [hasLoginFormF]
    simp [allNodesF]
  | .cons n rest => by
    rw [hasLoginFormF]
    rw [Bool.or_eq_true, hasLoginForm_iff n, hasLoginFormF_iff rest]
    constructor
    · rintro (⟨g, hg, hp⟩ | ⟨g, hg, hp⟩)
      · refine ⟨g, ?_, hp⟩
        simp [allNodesF]
        exact Or.inl hg
      · refine ⟨g, ?_, hp⟩
        simp [allNodesF]
        exact Or.inr hg
    · rintro ⟨g, hg, hp⟩
      have hg2 : g ∈ allNodes n ∨ g ∈ allNodesF rest := by
        simpa [allNodesF] using hg
      rcases hg2 with h1 | h2
      · exact Or.inl ⟨g, h1, hp⟩
      · exact Or.inr ⟨g, h2, hp⟩
end

/-- C10: the login form detector returns true exactly when some form
element of the document has, in its subtree, an input element with a
type password attribute; a password input outside every form never
turns the flag on, which is the forward direction of the
equivalence. -/
theorem has_login_form_iff_form_with_password_input (doc : HNode) :
    hasLoginForm doc = true ↔
    ∃ f, f ∈ allNodes doc ∧ f.ntype = NodeType.elementNode ∧
      f.data = "form" ∧
      ∃ i, i ∈ allNodes f ∧ i.ntype = NodeType.elementNode ∧
        i.data = "input" ∧ attrHasPassword i.attrs = true := by
  rw [hasLoginForm_iff doc]
  constructor
  · rintro ⟨f, hf, h1, h2, h3⟩
    obtain ⟨i, hi, hp1, hp2, hp3⟩ := (formHasPassword_iff f).mp h3
    exact ⟨f, hf, h1, h2, i, hi, hp1, hp2, hp3⟩
  · rintro ⟨f, hf, h1, h2, i, hi, hp1, hp2, hp3⟩
    exact ⟨f, hf, h1, h2, (formHasPassword_iff f).mpr ⟨i, hi, hp1, hp2, hp3⟩⟩

/- ===== C2: exactly once delivery without cancellation ===== -/

/-- Unfolding of the in flight tasks over a worker list cell. -/
theorem inFlight_cons (c : WPA.WStatus) (rest : List WPA.WStatus) :
    WPA.inFlight (c :: rest) = (WPA.taskOf c).toList ++ WPA.inFlight rest := by
  cases h : WPA.taskOf c <;> simp [WPA.inFlight, h]

/-- Replacing one worker cell trades its held task for the new one, as
multisets of task indices. -/
theorem inFlight_set (ws : List WPA.WStatus) (w : Nat)
    (st0 st1 : WPA.WStatus) (h : ws.get? w = some st0) :
    (WPA.inFlight (ws.set w st1) : Multiset Nat) +
      ((WPA.taskOf st0).toList : Multiset Nat) =
    (WPA.inFlight ws : Multiset Nat) +
      ((WPA.taskOf st1).toList : Multiset Nat) := by
  induction ws generalizing w with
  | nil => simp at h
  | cons c rest ih =>
    cases w with
    | zero =>
      injection h with h0
      subst h0
      simp only [List.set_cons_zero]
      rw [inFlight_cons, inFlight_cons]
      rw [← Multiset.coe_add, ← Multiset.coe_add]
      abel
    | succ w2 =>
      simp only [List.set_cons_succ]
      rw [inFlight_cons, inFlight_cons]
      have hih := ih w2 (by simpa using h)
      rw [← Multiset.coe_add, ← Multiset.coe_add]
      rw [add_assoc, hih, ← add_assoc]

/-- Quiescent workers hold no task. -/
theorem allIdle_inFlight (ws : List WPA.WStatus) (h : WPA.allIdle ws) :
    WPA.inFlight ws = [] := by
  induction ws with
  | nil => rfl
  | cons c rest ih =>
    have hc := h c (by simp)
    have hrest : WPA.allIdle rest := fun st hst => h st (by simp [hst])
    rcases hc with rfl | rfl <;> simp [inFlight_cons, WPA.taskOf, ih hrest]

/-- Inductive invariant of a pool that is never cancelled: no close has
happened, no panic, the submitted tasks are numbered in order, and the
delivered results together with the tasks held by workers are exactly
the submitted tasks. -/
def wpaGood (s : WPA.St) : Prop :=
  s.cancelled = false ∧ s.tasksClosed = false ∧ s.resultsClosed = false ∧
  s.panicFlag = none ∧ s.submitted = List.range s.nextTask ∧
  (s.delivered : Multiset Nat) + (WPA.inFlight s.workers : Multiset Nat) =
    (s.submitted : Multiset Nat)

/-- Preservation: any enabled step other than stop keeps the
no cancellation invariant when fail fast is off or no task errors. -/
theorem wpa_step_good (cfg : WPA.Cfg)
    (hok : cfg.stopOnError = false ∨ ∀ i, cfg.outcome i = false)
    (s s1 : WPA.St) (a : WPA.Act) (hnstop : a ≠ WPA.Act.stop)
    (hstep : WPA.step cfg s a = some s1) (hg : wpaGood s) : wpaGood s1 := by
  obtain ⟨hc, htc, hrc, hp, hsub, hbal⟩ := hg
  cases a with
  | stop => exact absurd rfl hnstop
  | submitCheck =>
    rw [WPA.step, WPA.gate, if_pos hp] at hstep
    split at hstep
    · rw [if_neg (show ¬(s.cancelled = true) by simp [hc])] at hstep
      injection hstep with h
      subst h
      exact ⟨hc, htc, hrc, hp, hsub, hbal⟩
    · exact absurd hstep (by simp)
  | submitEnq w =>
    rw [WPA.step, WPA.gate, if_pos hp] at hstep
    split at hstep
    · rename_i hcond
      injection hstep with h
      subst h
      refine ⟨hc, htc, hrc, hp, ?_, ?_⟩
      · show s.submitted ++ [s.nextTask] = List.range (s.nextTask + 1)
        rw [hsub, List.range_succ]
      · show (s.delivered : Multiset Nat) +
            (WPA.inFlight (s.workers.set w (WPA.WStatus.running s.nextTask)) :
              Multiset Nat) =
          ((s.submitted ++ [s.nextTask] : List Nat) : Multiset Nat)
        have hins := inFlight_set s.workers w WPA.WStatus.idle
          (WPA.WStatus.running s.nextTask) hcond.2.2
        simp only [WPA.taskOf, Option.toList] at hins
        have hins2 : (WPA.inFlight
            (s.workers.set w (WPA.WStatus.running s.nextTask)) : Multiset Nat) =
            (WPA.inFlight s.workers : Multiset Nat) +
            (([s.nextTask] : List Nat) : Multiset Nat) := by
          simpa using hins
        have hco : ((s.submitted ++ [s.nextTask] : List Nat) : Multiset Nat) =
            (s.submitted : Multiset Nat) +
            (([s.nextTask] : List Nat) : Multiset Nat) := rfl
        rw [hins2, hco, ← hbal]
        abel
    · exact absurd hstep (by simp)
  | submitRejected =>
    rw [WPA.step, WPA.gate, if_pos hp] at hstep
    split at hstep
    · rename_i hcond
      exact absurd hcond.2 (by simp [hc])
    · exact absurd hstep (by simp)
  | submitPanic =>
    rw [WPA.step, WPA.gate, if_pos hp] at hstep
    split at hstep
    · rename_i hcond
      exact absurd hcond.2 (by simp [htc])
    · exact absurd hstep (by simp)
  | finish w =>
    rw [WPA.step, WPA.gate, if_pos hp] at hstep
    rcases hget : s.workers.get? w with _ | st
    · rw [hget] at hstep
      exact absurd hstep (by simp)
    · rw [hget] at hstep
      cases st with
      | idle => exact absurd hstep (by simp)
      | exited => exact absurd hstep (by simp)
      | sending i => exact absurd hstep (by simp)
      | running i =>
        injection hstep with h
        subst h
        have hcnew : (s.cancelled || (cfg.outcome i && cfg.stopOnError)) = false := by
          rcases hok with h1 | h2
          · simp [hc, h1]
          · simp [hc, h2 i]
        refine ⟨hcnew, htc, hrc, hp, hsub, ?_⟩
        show (s.delivered : Multiset Nat) +
            (WPA.inFlight (s.workers.set w (WPA.WStatus.sending i)) :
              Multiset Nat) = (s.submitted : Multiset Nat)
        have hins := inFlight_set s.workers w (WPA.WStatus.running i)
          (WPA.WStatus.sending i) hget
        simp only [WPA.taskOf] at hins
        have hins2 : (WPA.inFlight
            (s.workers.set w (WPA.WStatus.sending i)) : Multiset Nat) =
            (WPA.inFlight s.workers : Multiset Nat) :=
          add_right_cancel hins
        rw [hins2]
        exact hbal
  | deliver w =>
    rw [WPA.step, WPA.gate, if_pos hp] at hstep
    rcases hget : s.workers.get? w with _ | st
    · rw [hget] at hstep
      exact absurd hstep (by simp)
    · rw [hget] at hstep
      cases st with
      | idle => exact absurd hstep (by simp)
      | exited => exact absurd hstep (by simp)
      | running i => exact absurd hstep (by simp)
      | sending i =>
        split at hstep
        · rename_i i2 heq2
          injection heq2 with heq3
          injection heq3 with heq4
          subst heq4
          split at hstep
          · injection hstep with h
            subst h
            refine ⟨hc, htc, hrc, hp, hsub, ?_⟩
            show ((s.delivered ++ [i] : List Nat) : Multiset Nat) +
                (WPA.inFlight (s.workers.set w WPA.WStatus.idle) :
                  Multiset Nat) = (s.submitted : Multiset Nat)
            have hins := inFlight_set s.workers w (WPA.WStatus.sending i)
              WPA.WStatus.idle hget
            simp only [WPA.taskOf, Option.toList] at hins
            have hco : ((s.delivered ++ [i] : List Nat) : Multiset Nat) =
                (s.delivered : Multiset Nat) + (([i] : List Nat) : Multiset Nat) :=
              rfl
            rw [hco, ← hbal]
            have hins2 : (WPA.inFlight
                (s.workers.set w WPA.WStatus.idle) : Multiset Nat) +
                (([i] : List Nat) : Multiset Nat) =
                (WPA.inFlight s.workers : Multiset Nat) := by
              simpa using hins
            calc (s.delivered : Multiset Nat) + (([i] : List Nat) : Multiset Nat) +
                  (WPA.inFlight (s.workers.set w WPA.WStatus.idle) : Multiset Nat)
                = (s.delivered : Multiset Nat) +
                  ((WPA.inFlight (s.workers.set w WPA.WStatus.idle) : Multiset Nat) +
                    (([i] : List Nat) : Multiset Nat)) := by abel
              _ = (s.delivered : Multiset Nat) +
                  (WPA.inFlight s.workers : Multiset Nat) := by rw [hins2]
          · rename_i hcond
            exact absurd hrc hcond
        · rename_i hno
          exact (hno i rfl).elim
  | panicSend w =>
    rw [WPA.step, WPA.gate, if_pos hp] at hstep
    rcases hget : s.workers.get? w with _ | st
    · rw [hget] at hstep
      exact absurd hstep (by simp)
    · rw [hget] at hstep
      cases st with
      | idle => exact absurd hstep (by simp)
      | exited => exact absurd hstep (by simp)
      | running i => exact absurd hstep (by simp)
      | sending i =>
        split at hstep
        · split at hstep
          · rename_i hcond
            exact absurd hcond (by simp [hrc])
          · exact absurd hstep (by simp)
        · rename_i hno
          exact (hno i rfl).elim
  | exitCancel w =>
    rw [WPA.step, WPA.gate, if_pos hp] at hstep
    split at hstep
    · rename_i hcond
      exact absurd hcond.2 (by simp [hc])
    · exact absurd hstep (by simp)
  | exitClosed w =>
    rw [WPA.step, WPA.gate, if_pos hp] at hstep
    split at hstep
    · rename_i hcond
      exact absurd hcond.2 (by simp [htc])
    · exact absurd hstep (by simp)
  | closeTasks =>
    rw [WPA.step, WPA.gate, if_pos hp] at hstep
    split at hstep
    · rename_i hcond
      exact absurd hcond.1 (by simp [hc])
    · exact absurd hstep (by simp)
  | closeResults =>
    rw [WPA.step, WPA.gate, if_pos hp] at hstep
    split at hstep
    · rename_i hcond
      exact absurd hcond.1 (by simp [htc])
    · exact absurd hstep (by simp)

/-- Run level form of the no cancellation invariant. -/
theorem wpa_run_good (cfg : WPA.Cfg)
    (hok : cfg.stopOnError = false ∨ ∀ i, cfg.outcome i = false) :
    ∀ (acts : List WPA.Act) (s0 s : WPA.St),
    WPA.run cfg s0 acts = some s → WPA.Act.stop ∉ acts →
    wpaGood s0 → wpaGood s := by
  intro acts
  induction acts with
  | nil =>
    intro s0 s hrun _ hg
    simp only [WPA.run] at hrun
    injection hrun with h
    subst h
    exact hg
  | cons a rest ih =>
    intro s0 s hrun hnostop hg
    simp only [WPA.run] at hrun
    rcases hstep : WPA.step cfg s0 a with _ | s1
    · rw [hstep] at hrun
      exact absurd hrun (by simp)
    · rw [hstep] at hrun
      have hna : a ≠ WPA.Act.stop := fun h => hnostop (h ▸ List.mem_cons_self a rest)
      have hnrest : WPA.Act.stop ∉ rest := fun h => hnostop (List.mem_cons_of_mem a h)
      exact ih s1 s hrun hnrest (wpa_step_good cfg hok s0 s1 a hna hstep hg)

/-- C2: in every execution of the checked in pool revision with no
stop and with fail fast off or no erroring task, the delivered results
are distinct task indices drawn from the submitted tasks, and whenever
the pool is quiescent, every worker back on its select, the delivered
results are exactly one per submitted task: no loss, no duplication,
and no result for a task never submitted. -/
theorem wpa_exact_delivery (cfg : WPA.Cfg) (n : Nat) (acts : List WPA.Act)
    (s : WPA.St) (hrun : WPA.run cfg (WPA.init n) acts = some s)
    (hnostop : WPA.Act.stop ∉ acts)
    (hok : cfg.stopOnError = false ∨ ∀ i, cfg.outcome i = false) :
    s.delivered.Nodup ∧ (∀ i ∈ s.delivered, i ∈ s.submitted) ∧
    (WPA.allIdle s.workers → s.delivered.Perm s.submitted) := by
  have hinit : wpaGood (WPA.init n) := by
    refine ⟨rfl, rfl, rfl, rfl, rfl, ?_⟩
    have hz : WPA.inFlight (List.replicate n WPA.WStatus.idle) = [] := by
      refine allIdle_inFlight _ ?_
      intro st hst
      exact Or.inl (List.eq_of_mem_replicate hst)
    show ((([] : List Nat)) : Multiset Nat) +
        (WPA.inFlight (List.replicate n WPA.WStatus.idle) : Multiset Nat) =
        (([] : List Nat) : Multiset Nat)
    rw [hz]
    rfl
  obtain ⟨hc, htc, hrc, hp, hsub, hbal⟩ :=
    wpa_run_good cfg hok acts (WPA.init n) s hrun hnostop hinit
  have hsubnodup : s.submitted.Nodup := by
    rw [hsub]
    exact List.nodup_range _
  have hle : (s.delivered : Multiset Nat) ≤ (s.submitted : Multiset Nat) := by
    rw [← hbal]
    exact Multiset.le_add_right _ _
  refine ⟨?_, ?_, ?_⟩
  · exact Multiset.coe_nodup.mp
      (Multiset.nodup_of_le hle (Multiset.coe_nodup.mpr hsubnodup))
  · intro i hi
    exact Multiset.mem_coe.mp
      (Multiset.mem_of_le hle (Multiset.mem_coe.mpr hi))
  · intro hidle
    have hz := allIdle_inFlight s.workers hidle
    rw [hz] at hbal
    refine Multiset.coe_eq_coe.mp ?_
    simpa using hbal

/-- Actions of the delivery witness: two tasks submitted to two
workers, each executed and delivered. -/
def wpaDemoActs : List WPA.Act :=
  [WPA.Act.submitCheck, WPA.Act.submitEnq 0, WPA.Act.submitCheck,
   WPA.Act.submitEnq 1, WPA.Act.finish 0, WPA.Act.deliver 0,
   WPA.Act.finish 1, WPA.Act.deliver 1]

/-- Final state of the delivery witness run. -/
def wpaDemoFinal : WPA.St :=
  { workers := [WPA.WStatus.idle, WPA.WStatus.idle], cancelled := false,
    tasksClosed := false, resultsClosed := false, sub := WPA.SubStatus.sIdle,
    nextTask := 2, submitted := [0, 1], delivered := [0, 1],
    finished := [0, 1], lastSubmit := some true, panicFlag := none }

/-- Witness for the exact delivery theorem on a concrete run of two
tasks over two workers. -/
theorem wpa_exact_delivery_witness :
    WPA.run cfgOk (WPA.init 2) wpaDemoActs = some wpaDemoFinal ∧
    WPA.Act.stop ∉ wpaDemoActs ∧
    wpaDemoFinal.delivered.Perm wpaDemoFinal.submitted :=
  ⟨by rfl, by decide,
   (wpa_exact_delivery cfgOk 2 wpaDemoActs wpaDemoFinal (by rfl) (by decide)
      (Or.inl rfl)).2.2 (by decide)⟩
